import Mathlib

/-!
Shallow embedding of the poker hand classifier (src/poker_hand.py) and of the
poker statistics engine (src/poker_stats.py).

The Card, Hand and Deck base classes live in card.py, which is not among the
repository sources; the Card model below is therefore taken from the
specification (section 3): a card is a suit (0..3) plus a rank (1..13 with
1 = Ace), and cards compare and equate by rank only.

Every other definition is translated directly from the Python source:
dictionaries that preserve insertion order become association lists, in-place
descending sorts become stable insertion sorts by rank, and the classified
hand list [htype, hand] or [htype, hand, rest] becomes the ClassifiedHand
structure with an optional kicker.
-/

namespace Poker

/-- Modelled from the spec: card.py (the Card class) is missing from src/.
Per spec section 3 a Card is (suit: one of 4 symbols, rank: integer 1..13,
1 = Ace); equality and ordering are by rank only (suit never breaks ties). -/
structure Card where
  suit : Nat
  rank : Nat
deriving DecidableEq

/-- Modelled from the spec: the default Card() that PokerHand.__high_card uses,
described in the source comment as initialized to the smallest value. -/
def dCard : Card := { suit := 0, rank := 0 }

/-- PokerHand.HIGH_CARD. -/
def HIGH_CARD : Nat := 0
/-- PokerHand.PAIR. -/
def PAIR : Nat := 1
/-- PokerHand.TWO_PAIR. -/
def TWO_PAIR : Nat := 2
/-- PokerHand.THREE_OF_A_KIND. -/
def THREE_OF_A_KIND : Nat := 3
/-- PokerHand.STRAIGHT. -/
def STRAIGHT : Nat := 4
/-- PokerHand.FLUSH. -/
def FLUSH : Nat := 5
/-- PokerHand.FULL_HOUSE. -/
def FULL_HOUSE : Nat := 6
/-- PokerHand.FOUR_OF_A_KIND. -/
def FOUR_OF_A_KIND : Nat := 7
/-- PokerHand.STRAIGHT_FLUSH. -/
def STRAIGHT_FLUSH : Nat := 8

/-- PokerHand.MIN_NUM_CARDS. -/
def MIN_NUM_CARDS : Nat := 5
/-- PokerHand.MAX_NUM_CARDS. -/
def MAX_NUM_CARDS : Nat := 7
/-- PokerHand.__SEQUENCE: number of cards in a straight flush and straight. -/
def SEQUENCE : Nat := 5

/-- One step of a stable insertion sort, placing a card before the first card
of strictly smaller rank (so equal ranks keep their original order). -/
def insertRankDesc (c : Card) : List Card → List Card
  | [] => [c]
  | x :: xs => if x.rank < c.rank then c :: x :: xs else x :: insertRankDesc c xs

/-- hand.sort(reverse = True) and the key = rank sort in PokerHand.__rest:
stable sort of cards, descending by rank (Card ordering is by rank only). -/
def sortRankDesc (l : List Card) : List Card :=
  l.foldl (fun acc c => insertRankDesc c acc) []

/-- One step of a stable insertion sort ascending by rank. -/
def insertRankAsc (c : Card) : List Card → List Card
  | [] => [c]
  | x :: xs => if c.rank < x.rank then c :: x :: xs else x :: insertRankAsc c xs

/-- sorted(cards): ascending by rank, used by the PokerHand.__update memo check. -/
def sortRankAsc (l : List Card) : List Card :=
  l.foldl (fun acc c => insertRankAsc c acc) []

/-- dict.setdefault(key, []).append(card): append the card to the group of its
key, creating the group at the end of the (insertion ordered) dict if new. -/
def groupAdd (key : Nat) (c : Card) : List (Nat × List Card) → List (Nat × List Card)
  | [] => [(key, [c])]
  | (k, g) :: rest => if k = key then (k, g ++ [c]) :: rest else (k, g) :: groupAdd key c rest

/-- self.__suits: cards grouped by suit, groups in first-seen order. -/
def groupBySuit (cards : List Card) : List (Nat × List Card) :=
  cards.foldl (fun acc c => groupAdd c.suit c acc) []

/-- self.__ranks: cards grouped by rank, groups in first-seen order. -/
def groupByRank (cards : List Card) : List (Nat × List Card) :=
  cards.foldl (fun acc c => groupAdd c.rank c acc) []

/-- l.insert(0, l.pop()): move the last element of a list to the front. -/
def moveLastToFront {α : Type} (l : List α) : List α :=
  match l.getLast? with
  | none => l
  | some a => a :: l.dropLast

/-- The straight-flush window scan of PokerHand.__suit: over a descending hand,
find the first index i with hand[i].rank == hand[i+4].rank + 4 and return
hand[i : i+5].  The Python loop runs for i in range(len(hand) - 5 + 1), which
is exactly the suffixes of length at least 5. -/
def straightWindowCards : List Card → Option (List Card)
  | [] => none
  | c :: rest =>
    if SEQUENCE ≤ (c :: rest).length then
      if c.rank = ((c :: rest).getD (SEQUENCE - 1) dCard).rank + (SEQUENCE - 1) then
        some ((c :: rest).take SEQUENCE)
      else straightWindowCards rest
    else none

/-- Body of PokerHand.__suit for one suit group of at least 5 cards, already
sorted descending: ace-high straight flush, then the window scan, then flush
(ace promoted to the front when present). -/
def suitClassify (h : List Card) : Nat × List Card :=
  if (h.getLastD dCard).rank = 1 ∧ (h.getD (SEQUENCE - 2) dCard).rank = 10 then
    (STRAIGHT_FLUSH, (moveLastToFront h).take SEQUENCE)
  else
    match straightWindowCards h with
    | some w => (STRAIGHT_FLUSH, w)
    | none =>
      if (h.getLastD dCard).rank = 1 then (FLUSH, (moveLastToFront h).take MIN_NUM_CARDS)
      else (FLUSH, h.take MIN_NUM_CARDS)

/-- The loop of PokerHand.__suit over self.__suits.values(): the first group
with at least MIN_NUM_CARDS cards is classified (and the loop returns);
smaller groups are skipped. -/
def suitScanGroups : List (Nat × List Card) → Option (Nat × List Card)
  | [] => none
  | (_, g) :: rest =>
    if MIN_NUM_CARDS ≤ g.length then some (suitClassify (sortRankDesc g))
    else suitScanGroups rest

/-- PokerHand.__suit: the pruning guard
len(suits) <= len(cards) - MIN_NUM_CARDS + 1 (written without truncating
natural subtraction) followed by the scan over the suit groups. -/
def suitHand (cards : List Card) : Option (Nat × List Card) :=
  let suits := groupBySuit cards
  if suits.length + MIN_NUM_CARDS ≤ cards.length + 1 then suitScanGroups suits
  else none

/-- One step of sorted(ranks.items(), reverse = True): insertion descending by
the rank key (keys are distinct). -/
def insertGroupDesc (p : Nat × List Card) : List (Nat × List Card) → List (Nat × List Card)
  | [] => [p]
  | q :: qs => if q.1 < p.1 then p :: q :: qs else q :: insertGroupDesc p qs

/-- sorted(self.__ranks.items(), reverse = True). -/
def sortRanksDesc (l : List (Nat × List Card)) : List (Nat × List Card) :=
  l.foldl (fun acc p => insertGroupDesc p acc) []

/-- The straight window scan of PokerHand.__straight over the descending list
of rank groups: first index i with ranks[i][0] == ranks[i+4][0] + 4, taking
the first card of each of the five groups. -/
def straightWindowRanks : List (Nat × List Card) → Option (List Card)
  | [] => none
  | p :: rest =>
    if SEQUENCE ≤ (p :: rest).length then
      if p.1 = ((p :: rest).getD (SEQUENCE - 1) (0, [])).1 + (SEQUENCE - 1) then
        some (((p :: rest).take SEQUENCE).map (fun q => q.2.headD dCard))
      else straightWindowRanks rest
    else none

/-- PokerHand.__straight: needs at least 5 rank groups; the ace-high special
case A,K,Q,J,10 puts the ace first, otherwise the window scan runs. -/
def straightOf (ranks : List (Nat × List Card)) (ace : Option Card) : Option (List Card) :=
  if SEQUENCE ≤ ranks.length then
    match ace with
    | some a =>
      if (ranks.getD (SEQUENCE - 2) (0, [])).1 = 10 then
        some (a :: (ranks.take (SEQUENCE - 1)).map (fun q => q.2.headD dCard))
      else straightWindowRanks ranks
    | none => straightWindowRanks ranks
  else none

/-- PokerHand.__full_house: g is the current group (a pair or a three),
same is the accumulator of g's kind, comp the complementary accumulator.
Returns the full-house hand when one is completed, else extends same with g
(mirroring same_hand.extend(hand)). -/
def fullHouseStep (g same comp : List Card) : Option (List Card) × List Card :=
  if comp ≠ [] then
    (some (if g.length = 2 then comp ++ g else g ++ comp.take 2), same)
  else if same.length = 3 then
    (some (same ++ g.dropLast), same)
  else (none, same ++ g)

/-- The loop of PokerHand.__rank over the (ace-fronted) rank groups: the match
on len(hand[1]) with cases 2 (pair), 3 (three of a kind) and 4 (four of a
kind); other sizes fall through.  Returns the completed hand, if any, together
with the final three and pairs accumulators. -/
def rankLoop : List (Nat × List Card) → List Card → List Card →
    Option (Nat × List Card) × List Card × List Card
  | [], three, pairs => (none, three, pairs)
  | (_, g) :: rest, three, pairs =>
    if g.length = 2 then
      match fullHouseStep g pairs three with
      | (some fh, _) => (some (FULL_HOUSE, fh), three, pairs)
      | (none, pairs2) => rankLoop rest three pairs2
    else if g.length = 3 then
      match fullHouseStep g three pairs with
      | (some fh, _) => (some (FULL_HOUSE, fh), three, pairs)
      | (none, three2) => rankLoop rest three2 pairs
    else if g.length = 4 then (some (FOUR_OF_A_KIND, g), three, pairs)
    else rankLoop rest three pairs

/-- PokerHand.__rank: sort the rank groups descending, find the ace, try the
straight, then move the ace group to the front and run the pair/three/four
loop; finally emit pair, two pair or three of a kind from the accumulators. -/
def rankHand (cards : List Card) : Option (Nat × List Card) :=
  let ranks := sortRanksDesc (groupByRank cards)
  let ace : Option Card :=
    match ranks.getLast? with
    | some kg => if kg.1 = 1 then some (kg.2.headD dCard) else none
    | none => none
  match straightOf ranks ace with
  | some s => some (STRAIGHT, s)
  | none =>
    let ranks2 := if ace.isSome then moveLastToFront ranks else ranks
    match rankLoop ranks2 [] [] with
    | (some r, _, _) => some r
    | (none, three, pairs) =>
      if pairs.length = 2 then some (PAIR, pairs)
      else if pairs ≠ [] then some (TWO_PAIR, pairs.take 4)
      else if three ≠ [] then some (THREE_OF_A_KIND, three)
      else none

/-- The loop of PokerHand.__high_card: an ace wins immediately, otherwise keep
the first card of maximal rank. -/
def highCardLoop (best : Card) : List Card → Card
  | [] => best
  | c :: rest =>
    if c.rank = 1 then c
    else if best.rank < c.rank then highCardLoop c rest
    else highCardLoop best rest

/-- PokerHand.__high_card. -/
def highCard (cards : List Card) : Card := highCardLoop dCard cards

/-- The classification pipeline of PokerHand.classify: __suit, then __rank,
then the high-card fallback.  Returns the hand type and the hand itself
(self.__hand[0] and self.__hand[1]). -/
def classifyCore (cards : List Card) : Nat × List Card :=
  match suitHand cards with
  | some r => r
  | none =>
    match rankHand cards with
    | some r => r
    | none => (HIGH_CARD, [highCard cards])

/-- cards_copy.remove(card): remove the first card equal to the given one.
Card equality is by rank only (spec section 3), so the first card of the
given rank is removed. -/
def eraseRank (l : List Card) (r : Nat) : List Card :=
  l.eraseP (fun x => x.rank == r)

/-- The ace promotion of PokerHand.__rest: if the last card (of a descending
list) is an ace, move it to the front. -/
def acePromote (l : List Card) : List Card :=
  match l.getLast? with
  | some c => if c.rank = 1 then moveLastToFront l else l
  | none => l

/-- PokerHand.__rest: when the hand has fewer than MIN_NUM_CARDS cards, delete
the hand's cards from the copy of the cards, sort the remainder descending by
rank, promote a trailing ace to the front, and keep the first
MIN_NUM_CARDS - len(hand) cards as the rest of the hand. -/
def restOf (p cards : List Card) : Option (List Card) :=
  if MIN_NUM_CARDS - p.length = 0 then none
  else
    let copy := p.foldl (fun acc c => eraseRank acc c.rank) cards
    some ((acePromote (sortRankDesc copy)).take (MIN_NUM_CARDS - p.length))

/-- The classified hand self.__hand: [htype, hand] or [htype, hand, rest]. -/
structure ClassifiedHand where
  htype : Nat
  primary : List Card
  kicker : Option (List Card)
deriving DecidableEq

/-- PokerHand.classify on the normal flow, starting from freshly set cards:
fewer than MIN_NUM_CARDS cards is the error (empty) result, otherwise the
pipeline runs and __rest completes the hand. -/
def classifyHand (cards : List Card) : Option ClassifiedHand :=
  if cards.length < MIN_NUM_CARDS then none
  else
    let tp := classifyCore cards
    some { htype := tp.1, primary := tp.2, kicker := restOf tp.2 cards }

/-- The number of cards of the hand part of each hand type, as produced by the
classifier (used to state well-formedness of classified hands). -/
def primLen (t : Nat) : Nat :=
  if t = HIGH_CARD then 1
  else if t = PAIR then 2
  else if t = TWO_PAIR then 4
  else if t = THREE_OF_A_KIND then 3
  else if t = FOUR_OF_A_KIND then 4
  else 5

/-- _compare_eq: zip the two card lists and compare ranks pairwise; the first
differing rank makes the hands different. -/
def compare_eq : List Card → List Card → Bool
  | c :: cs, o :: os => if c.rank ≠ o.rank then false else compare_eq cs os
  | _, _ => true

/-- _compare_lt: pairwise rank comparison where an ace (rank 1) outranks every
other rank; some true means smaller, some false greater, none all equal. -/
def compare_lt : List Card → List Card → Option Bool
  | c :: cs, o :: os =>
    if c.rank ≠ 1 ∧ (c.rank < o.rank ∨ o.rank = 1) then some true
    else if o.rank ≠ 1 ∧ (c.rank > o.rank ∨ c.rank = 1) then some false
    else compare_lt cs os
  | _, _ => none

/-- PokerHand.__eq__ on two classified hands: same hand type, pairwise equal
ranks of the hands, and, when this hand has a rest, pairwise equal ranks of
the rests (the source indexes other_hand[2], defined whenever the other hand
is a classified hand of the same type). -/
def handEq (a b : ClassifiedHand) : Bool :=
  if a.htype = b.htype ∧ compare_eq a.primary b.primary = true then
    match a.kicker with
    | some k => compare_eq k (b.kicker.getD [])
    | none => true
  else false

/-- PokerHand.__lt__ on two classified hands: hand types first, then the
hands via _compare_lt, then (bool of) the rests when this hand has one. -/
def handLt (a b : ClassifiedHand) : Bool :=
  if a.htype < b.htype then true
  else if a.htype = b.htype then
    match compare_lt a.primary b.primary with
    | some v => v
    | none =>
      match a.kicker with
      | some k => (compare_lt k (b.kicker.getD [])).getD false
      | none => false
  else false

/-- The three outcomes of PokerHand.compare. -/
inductive CmpRes
  | lt
  | eq
  | gt
deriving DecidableEq

/-- PokerHand.compare on two classified hands: self == other is tried first,
then self > other (which Python evaluates as other.__lt__(self)); otherwise
the other hand is better. -/
def compareHands (a b : ClassifiedHand) : CmpRes :=
  if handEq a b then CmpRes.eq
  else if handLt b a then CmpRes.gt
  else CmpRes.lt

/-- The mutable attributes of a PokerHand object: the inherited cards list and
the private attributes set by __reset and classification. -/
structure PokerHandState where
  cards : List Card
  cardsCopy : List Card
  suits : List (Nat × List Card)
  ranks : List (Nat × List Card)
  handField : Option ClassifiedHand
deriving DecidableEq

/-- The final value of self.__cards_copy after PokerHand.__rest: the hand's
cards are removed, the remainder sorted descending (trailing ace promoted),
and afterwards the hand's cards are appended back (the restore step). -/
def restCopyAfter (p cards : List Card) : List Card :=
  if MIN_NUM_CARDS - p.length = 0 then cards
  else
    let copy := p.foldl (fun acc c => eraseRank acc c.rank) cards
    acePromote (sortRankDesc copy) ++ p

/-- PokerHand.classify(normal_flow = True) as a state transformer: __update
resets and reports the error when fewer than MIN_NUM_CARDS cards are present,
skips reclassification when the sorted cards equal the sorted snapshot
(Card equality by rank), and otherwise reclassifies, rebuilding the suit and
rank groupings, the classified hand, and the cards snapshot. -/
def classifyS (s : PokerHandState) : PokerHandState :=
  if s.cards.length < MIN_NUM_CARDS then
    { s with cardsCopy := s.cards, suits := [], ranks := [], handField := none }
  else if (sortRankAsc s.cardsCopy).map Card.rank = (sortRankAsc s.cards).map Card.rank then
    s
  else
    let tp := classifyCore s.cards
    { cards := s.cards,
      cardsCopy := restCopyAfter tp.2 s.cards,
      suits := groupBySuit s.cards,
      ranks := groupByRank s.cards,
      handField := some { htype := tp.1, primary := tp.2, kicker := restOf tp.2 s.cards } }

/-- PokerStats.UPDATE. -/
def UPDATE : Nat := 1
/-- PokerStats.APPEND. -/
def APPEND : Nat := 2
/-- PokerStats.ITERATIONS. -/
def ITERATIONS : Nat := 10000
/-- PokerStats.CARDS_PER_DECK = len(Card.suit_names) * len(Card.rank_names[1:]).
Modelled from the spec: card.py is missing; the spec fixes 4 suits and ranks
1..13, giving the 52 card deck. -/
def CARDS_PER_DECK : Nat := 4 * 13

/-- The data attributes of a PokerStats object (the reference-counting adder
base class plays no part in generation and is not modelled). -/
structure PokerStatsState where
  iterations : Nat
  cards_per_hand : Nat
  operation : Nat
  hands_per_deck : Nat
  histogram : List (Nat × Nat)
  samples : Nat
deriving DecidableEq

/-- PokerStats.__init__. -/
def initStats : PokerStatsState :=
  { iterations := ITERATIONS,
    cards_per_hand := MAX_NUM_CARDS,
    operation := UPDATE,
    hands_per_deck := CARDS_PER_DECK / MAX_NUM_CARDS,
    histogram := [],
    samples := 0 }

/-- _param_error of poker_stats.py (the isinstance checks are carried by the
types): iterations must be positive, cards_per_hand within
[MIN_NUM_CARDS, MAX_NUM_CARDS], the operation within [NONE, APPEND]. -/
def paramErr (iterations cards_per_hand operation : Nat) : Bool :=
  if iterations < 1 then true
  else if ¬(MIN_NUM_CARDS ≤ cards_per_hand ∧ cards_per_hand ≤ MAX_NUM_CARDS) then true
  else if ¬(operation ≤ APPEND) then true
  else false

/-- The tail of PokerStats.__set: clear stats if stats exist and the (new)
operation is UPDATE (histogram.clear() and samples = 0). -/
def clearCheck (s : PokerStatsState) : PokerStatsState :=
  if s.samples ≠ 0 ∧ s.operation = UPDATE then { s with histogram := [], samples := 0 }
  else s

/-- PokerStats.__set: when any parameter changed, validate them, reject an
append whose cards_per_hand differs from that of an existing histogram, and
otherwise store the new parameters and recompute hands_per_deck; finally the
clear-on-update check runs. -/
def setParams (s : PokerStatsState) (iterations cards_per_hand operation : Nat) :
    PokerStatsState × Bool :=
  if s.iterations ≠ iterations ∨ s.cards_per_hand ≠ cards_per_hand ∨
      s.operation ≠ operation then
    if paramErr iterations cards_per_hand operation then (s, false)
    else if operation = APPEND ∧ s.cards_per_hand ≠ cards_per_hand ∧ s.histogram ≠ [] then
      (s, false)
    else
      let s2 := { s with iterations := iterations,
                         cards_per_hand := cards_per_hand,
                         operation := operation,
                         hands_per_deck := CARDS_PER_DECK / cards_per_hand }
      (clearCheck s2, true)
  else (clearCheck s, true)

/-- histogram.setdefault(htype, 0); histogram[htype] += 1. -/
def histIncr (h : List (Nat × Nat)) (k : Nat) : List (Nat × Nat) :=
  match h with
  | [] => [(k, 1)]
  | (k2, v) :: rest => if k2 = k then (k2, v + 1) :: rest else (k2, v) :: histIncr rest k

/-- The sum of all bucket counts of a histogram. -/
def histSum (h : List (Nat × Nat)) : Nat := (h.map (fun p => p.2)).sum

/-- Modelled from the spec: deck.move_cards(hand, cards_per_hand) deals the
j-th batch of cards_per_hand cards of the shuffled deck into the hand buffer
(card.py is missing; the spec says the deck repeatedly deals cards_per_hand
fresh cards until exhausted). -/
def dealtHand (deck : List Card) (j c : Nat) : List Card := (deck.drop (j * c)).take c

/-- The inner loop of PokerStats.__generate over the hands of one shuffled
deck: each dealt hand is classified (normal_flow = False, so only
[htype, hand] is produced, which is always non-empty) and its hand type
bucket is incremented. -/
def roundHist (deck : List Card) (c hpd : Nat) (hist : List (Nat × Nat)) : List (Nat × Nat) :=
  (List.range hpd).foldl (fun h j => histIncr h (classifyCore (dealtHand deck j c)).1) hist

/-- The outer loop of PokerStats.__generate over the iterations; decks i is
the freshly shuffled deck of iteration i (shuffling is external card.py
behaviour, so the shuffled decks are a parameter). -/
def runAll (decks : Nat → List Card) (c hpd iterations : Nat)
    (hist : List (Nat × Nat)) : List (Nat × Nat) :=
  (List.range iterations).foldl (fun h i => roundHist (decks i) c hpd h) hist

/-- PokerStats.__generate: operation NONE does nothing; otherwise __set
validates and stores the parameters, and on success the generation loops run
and samples grows by iterations * hands_per_deck. -/
def generate (s : PokerStatsState) (decks : Nat → List Card)
    (iterations cards_per_hand operation : Nat) : PokerStatsState × Bool :=
  if operation ≠ 0 then
    match setParams s iterations cards_per_hand operation with
    | (s1, true) =>
      ({ s1 with
          histogram := runAll decks s1.cards_per_hand s1.hands_per_deck s1.iterations
            s1.histogram,
          samples := s1.samples + s1.iterations * s1.hands_per_deck }, true)
    | (s1, false) => (s1, false)
  else (s, true)

/-- A full 52 card deck (4 suits, ranks 1..13). -/
def stdDeck : List Card :=
  (List.range 4).flatMap (fun s => (List.range 13).map (fun r => { suit := s, rank := r + 1 }))

/-- Suits are encoded 0 = Clubs, 1 = Diamonds, 2 = Hearts, 3 = Spades.
The seven-card hand A spades, A hearts, K diamonds, K clubs, Q spades,
Q hearts, J diamonds of the three-pairs fixture. -/
def threePairHand : List Card :=
  [⟨3, 1⟩, ⟨2, 1⟩, ⟨1, 13⟩, ⟨0, 13⟩, ⟨3, 12⟩, ⟨2, 12⟩, ⟨1, 11⟩]

/-- The five-card hand 2 spades, 2 hearts, 2 diamonds, 5 clubs, 5 spades of
the full-house fixture. -/
def fullHouseHand : List Card := [⟨3, 2⟩, ⟨2, 2⟩, ⟨1, 2⟩, ⟨0, 5⟩, ⟨3, 5⟩]

/-- A suited wheel: 5,4,3,2,A of spades. -/
def wheelSuited : List Card := [⟨3, 5⟩, ⟨3, 4⟩, ⟨3, 3⟩, ⟨3, 2⟩, ⟨3, 1⟩]

/-- An offsuit wheel: 5 spades, 4 hearts, 3 diamonds, 2 clubs, A spades. -/
def wheelOffsuit : List Card := [⟨3, 5⟩, ⟨2, 4⟩, ⟨1, 3⟩, ⟨0, 2⟩, ⟨3, 1⟩]

/-- A five-card hand holding exactly one pair: 2s, 2h, 5d, 7c, 9s. -/
def onePairHand : List Card := [⟨3, 2⟩, ⟨2, 2⟩, ⟨1, 5⟩, ⟨0, 7⟩, ⟨3, 9⟩]

/-- A seven-card hand holding exactly one pair: 2s, 2h, 5d, 7c, 9s, Jh, Kd. -/
def sevenPairHand : List Card :=
  [⟨3, 2⟩, ⟨2, 2⟩, ⟨1, 5⟩, ⟨0, 7⟩, ⟨3, 9⟩, ⟨2, 11⟩, ⟨1, 13⟩]

/-- The five-card high-card fixture 7s, 5h, 9d, 2c, Js. -/
def highCardHand : List Card := [⟨3, 7⟩, ⟨2, 5⟩, ⟨1, 9⟩, ⟨0, 2⟩, ⟨3, 11⟩]

/-- The ace-high straight flush fixture As, Ks, Qs, Js, 10s. -/
def royalHand : List Card := [⟨3, 1⟩, ⟨3, 13⟩, ⟨3, 12⟩, ⟨3, 11⟩, ⟨3, 10⟩]

/-- The classified hand of the high-card fixture (used to instantiate the
comparator properties at a concrete classified hand). -/
def highCardClassified : ClassifiedHand :=
  (classifyHand highCardHand).getD { htype := 0, primary := [], kicker := none }

/-- The classified hand of the straight-flush fixture. -/
def royalClassified : ClassifiedHand :=
  (classifyHand royalHand).getD { htype := 0, primary := [], kicker := none }

/-- The classified hand of the seven-card one-pair hand. -/
def sevenPairClassified : ClassifiedHand :=
  (classifyHand sevenPairHand).getD { htype := 0, primary := [], kicker := none }

/-- The kicker of the classified seven-card one-pair hand. -/
def sevenPairKicker : List Card := sevenPairClassified.kicker.getD []

end Poker

namespace Poker

theorem histSum_nil : histSum [] = 0 := rfl

theorem histSum_cons (a b : Nat) (t : List (Nat × Nat)) :
    histSum ((a, b) :: t) = b + histSum t := by
  simp [histSum]

theorem histSum_histIncr (h : List (Nat × Nat)) (k : Nat) :
    histSum (histIncr h k) = histSum h + 1 := by
  induction h with
  | nil => simp [histIncr, histSum]
  | cons p rest ih =>
    obtain ⟨k2, v⟩ := p
    unfold histIncr
    split
    · rw [histSum_cons, histSum_cons]
      omega
    · rw [histSum_cons, histSum_cons, ih]
      omega

theorem roundHist_sum (deck : List Card) (c hpd : Nat) (hist : List (Nat × Nat)) :
    histSum (roundHist deck c hpd hist) = histSum hist + hpd := by
  induction hpd with
  | zero => simp [roundHist]
  | succ n ih =>
    unfold roundHist at ih ⊢
    rw [List.range_succ, List.foldl_append, List.foldl_cons, List.foldl_nil,
      histSum_histIncr, ih]
    omega

theorem runAll_sum (decks : Nat → List Card) (c hpd iterations : Nat)
    (hist : List (Nat × Nat)) :
    histSum (runAll decks c hpd iterations hist) = histSum hist + iterations * hpd := by
  induction iterations with
  | zero => simp [runAll]
  | succ n ih =>
    unfold runAll at ih ⊢
    rw [List.range_succ, List.foldl_append, List.foldl_cons, List.foldl_nil,
      roundHist_sum, ih, Nat.succ_mul]
    omega

theorem clearCheck_inv (s : PokerStatsState) (h : histSum s.histogram = s.samples) :
    histSum (clearCheck s).histogram = (clearCheck s).samples := by
  unfold clearCheck
  split
  · rfl
  · exact h

theorem setParams_inv (s : PokerStatsState) (it c op : Nat)
    (h : histSum s.histogram = s.samples) :
    histSum (setParams s it c op).1.histogram = (setParams s it c op).1.samples := by
  unfold setParams
  split
  · split
    · exact h
    · split
      · exact h
      · exact clearCheck_inv _ h
  · exact clearCheck_inv _ h

theorem generate_inv (s : PokerStatsState) (decks : Nat → List Card) (it c op : Nat)
    (h : histSum s.histogram = s.samples) :
    histSum (generate s decks it c op).1.histogram = (generate s decks it c op).1.samples := by
  have hset := setParams_inv s it c op h
  unfold generate
  split
  · rcases hs : setParams s it c op with ⟨s1, b⟩
    rw [hs] at hset
    cases b
    · simpa using hset
    · simp only
      rw [runAll_sum]
      simpa using congrArg (fun n => n + s1.iterations * s1.hands_per_deck) hset
  · exact h

theorem length_insertRankDesc (c : Card) (l : List Card) :
    (insertRankDesc c l).length = l.length + 1 := by
  induction l with
  | nil => rfl
  | cons x xs ih =>
    unfold insertRankDesc
    split
    · simp
    · simp [ih]

theorem length_sortRankDesc_fold (l acc : List Card) :
    (l.foldl (fun a c => insertRankDesc c a) acc).length = acc.length + l.length := by
  induction l generalizing acc with
  | nil => simp
  | cons x xs ih =>
    simp only [List.foldl_cons, List.length_cons]
    rw [ih, length_insertRankDesc]
    omega

theorem length_sortRankDesc (l : List Card) : (sortRankDesc l).length = l.length := by
  unfold sortRankDesc
  rw [length_sortRankDesc_fold]
  simp

theorem length_moveLastToFront {α : Type} (l : List α) :
    (moveLastToFront l).length = l.length := by
  unfold moveLastToFront
  cases hl : l.getLast? with
  | none => rfl
  | some a =>
    have hne : l ≠ [] := by
      intro he
      subst he
      simp at hl
    have h1 : 1 ≤ l.length := List.length_pos.mpr hne
    simp only [List.length_cons, List.length_dropLast]
    omega

theorem length_acePromote (l : List Card) : (acePromote l).length = l.length := by
  unfold acePromote
  split
  · split
    · exact length_moveLastToFront l
    · rfl
  · rfl

theorem straightWindowCards_length (l w : List Card)
    (h : straightWindowCards l = some w) : w.length = 5 := by
  induction l with
  | nil => simp [straightWindowCards] at h
  | cons c rest ih =>
    unfold straightWindowCards at h
    split at h
    · split at h
      · rename_i h5 _
        simp only [Option.some.injEq] at h
        subst h
        rw [List.length_take]
        have hs : SEQUENCE = 5 := rfl
        omega
      · exact ih h
    · simp at h

theorem suitClassify_spec (h : List Card) (h5 : 5 ≤ h.length) :
    ((suitClassify h).1 = STRAIGHT_FLUSH ∨ (suitClassify h).1 = FLUSH) ∧
    (suitClassify h).2.length = 5 := by
  have hs : SEQUENCE = 5 := rfl
  have hm : MIN_NUM_CARDS = 5 := rfl
  unfold suitClassify
  split
  · refine ⟨Or.inl rfl, ?_⟩
    simp only [List.length_take, length_moveLastToFront]
    omega
  · split
    · rename_i w hw
      exact ⟨Or.inl rfl, straightWindowCards_length h w hw⟩
    · split
      · refine ⟨Or.inr rfl, ?_⟩
        simp only [List.length_take, length_moveLastToFront]
        omega
      · refine ⟨Or.inr rfl, ?_⟩
        simp only [List.length_take]
        omega

theorem suitScanGroups_spec (gs : List (Nat × List Card)) (t : Nat) (p : List Card)
    (h : suitScanGroups gs = some (t, p)) :
    (t = STRAIGHT_FLUSH ∨ t = FLUSH) ∧ p.length = 5 := by
  induction gs with
  | nil => simp [suitScanGroups] at h
  | cons g rest ih =>
    obtain ⟨k, gc⟩ := g
    unfold suitScanGroups at h
    split at h
    · rename_i hlen
      simp only [Option.some.injEq] at h
      have hsort : 5 ≤ (sortRankDesc gc).length := by
        rw [length_sortRankDesc]
        have hm : MIN_NUM_CARDS = 5 := rfl
        omega
      have hspec := suitClassify_spec (sortRankDesc gc) hsort
      rw [h] at hspec
      simpa using hspec
    · exact ih h

theorem suitHand_spec (cards : List Card) (t : Nat) (p : List Card)
    (h : suitHand cards = some (t, p)) :
    (t = STRAIGHT_FLUSH ∨ t = FLUSH) ∧ p.length = 5 := by
  simp only [suitHand] at h
  split at h
  · exact suitScanGroups_spec _ t p h
  · simp at h

theorem straightWindowRanks_length (l : List (Nat × List Card)) (w : List Card)
    (h : straightWindowRanks l = some w) : w.length = 5 := by
  induction l with
  | nil => simp [straightWindowRanks] at h
  | cons q rest ih =>
    unfold straightWindowRanks at h
    split at h
    · split at h
      · rename_i h5 _
        simp only [Option.some.injEq] at h
        subst h
        rw [List.length_map, List.length_take]
        have hs : SEQUENCE = 5 := rfl
        omega
      · exact ih h
    · simp at h

theorem straightOf_length (ranks : List (Nat × List Card)) (ace : Option Card)
    (w : List Card) (h : straightOf ranks ace = some w) : w.length = 5 := by
  unfold straightOf at h
  split at h
  · rename_i h5
    split at h
    · split at h
      · simp only [Option.some.injEq] at h
        subst h
        simp only [List.length_cons, List.length_map, List.length_take]
        have hs : SEQUENCE = 5 := rfl
        omega
      · exact straightWindowRanks_length ranks w h
    · exact straightWindowRanks_length ranks w h
  · simp at h

theorem fullHouseStep_some (g same comp : List Card) (fh s2 : List Card)
    (h : fullHouseStep g same comp = (some fh, s2)) :
    (comp ≠ [] ∧ fh = (if g.length = 2 then comp ++ g else g ++ comp.take 2)) ∨
    (comp = [] ∧ same.length = 3 ∧ fh = same ++ g.dropLast) := by
  unfold fullHouseStep at h
  split at h
  · rename_i hc
    simp only [Prod.mk.injEq, Option.some.injEq] at h
    exact Or.inl ⟨hc, h.1.symm⟩
  · split at h
    · rename_i hc h3
      simp only [Prod.mk.injEq, Option.some.injEq] at h
      exact Or.inr ⟨not_not.mp hc, h3, h.1.symm⟩
    · simp at h

theorem fullHouseStep_none (g same comp : List Card) (s2 : List Card)
    (h : fullHouseStep g same comp = (none, s2)) :
    comp = [] ∧ same.length ≠ 3 ∧ s2 = same ++ g := by
  unfold fullHouseStep at h
  split at h
  · simp at h
  · split at h
    · simp at h
    · rename_i hc h3
      simp only [Prod.mk.injEq] at h
      exact ⟨not_not.mp hc, h3, h.2.symm⟩

theorem rankLoop_spec (gs : List (Nat × List Card)) :
    ∀ three pairs : List Card,
      (three.length = 0 ∨ three.length = 3) → pairs.length % 2 = 0 →
      (∀ t p th pr, rankLoop gs three pairs = (some (t, p), th, pr) →
        (t = FULL_HOUSE ∧ p.length = 5) ∨ (t = FOUR_OF_A_KIND ∧ p.length = 4)) ∧
      (∀ th pr, rankLoop gs three pairs = (none, th, pr) →
        (th.length = 0 ∨ th.length = 3) ∧ pr.length % 2 = 0) := by
  induction gs with
  | nil =>
    intro three pairs h3 hp
    constructor
    · intro t p th pr h
      simp [rankLoop] at h
    · intro th pr h
      simp only [rankLoop, Prod.mk.injEq] at h
      obtain ⟨-, h1, h2⟩ := h
      subst h1
      subst h2
      exact ⟨h3, hp⟩
  | cons g rest ih =>
    intro three pairs h3 hp
    obtain ⟨k, gc⟩ := g
    constructor
    · intro t p th pr h
      unfold rankLoop at h
      split at h
      · rename_i h2
        split at h
        · rename_i fh s2 heq
          simp only [Prod.mk.injEq, Option.some.injEq] at h
          obtain ⟨⟨ht, hfh⟩, -, -⟩ := h
          subst ht
          rcases fullHouseStep_some gc pairs three fh s2 heq with ⟨hc, hfh2⟩ | ⟨-, h33, hfh2⟩
          · left
            refine ⟨rfl, ?_⟩
            rw [if_pos h2] at hfh2
            have h3len : three.length = 3 := by
              rcases h3 with h0 | h0
              · exact absurd (List.length_eq_zero.mp h0) hc
              · exact h0
            subst hfh
            rw [hfh2]
            simp [h3len, h2]
          · exfalso
            omega
        · rename_i pairs2 heq
          obtain ⟨-, -, hp2⟩ := fullHouseStep_none gc pairs three pairs2 heq
          have hp2even : pairs2.length % 2 = 0 := by
            rw [hp2]
            simp [h2]
            omega
          exact (ih three pairs2 h3 hp2even).1 t p th pr h
      · split at h
        · rename_i h2 hg3
          split at h
          · rename_i fh s2 heq
            simp only [Prod.mk.injEq, Option.some.injEq] at h
            obtain ⟨⟨ht, hfh⟩, -, -⟩ := h
            subst ht
            left
            refine ⟨rfl, ?_⟩
            subst hfh
            rcases fullHouseStep_some gc three pairs fh s2 heq with ⟨hc, hfh2⟩ | ⟨-, h33, hfh2⟩
            · rw [if_neg (by omega)] at hfh2
              have hcl : 2 ≤ pairs.length := by
                have : pairs.length ≠ 0 := fun he => hc (List.length_eq_zero.mp he)
                omega
              rw [hfh2]
              simp only [List.length_append, List.length_take]
              omega
            · rw [hfh2]
              simp only [List.length_append, List.length_dropLast]
              omega
          · rename_i three2 heq
            obtain ⟨-, h33, ht2⟩ := fullHouseStep_none gc three pairs three2 heq
            have h32 : three2.length = 0 ∨ three2.length = 3 := by
              rw [ht2]
              simp only [List.length_append]
              rcases h3 with h0 | h0
              · right
                omega
              · exact absurd h0 h33
            exact (ih three2 pairs h32 hp).1 t p th pr h
        · split at h
          · rename_i h4
            simp only [Prod.mk.injEq, Option.some.injEq] at h
            obtain ⟨⟨ht, hgp⟩, -, -⟩ := h
            subst ht
            subst hgp
            exact Or.inr ⟨rfl, h4⟩
          · exact (ih three pairs h3 hp).1 t p th pr h
    · intro th pr h
      unfold rankLoop at h
      split at h
      · rename_i h2
        split at h
        · simp at h
        · rename_i pairs2 heq
          obtain ⟨-, -, hp2⟩ := fullHouseStep_none gc pairs three pairs2 heq
          have hp2even : pairs2.length % 2 = 0 := by
            rw [hp2]
            simp [h2]
            omega
          exact (ih three pairs2 h3 hp2even).2 th pr h
      · split at h
        · rename_i h2 hg3
          split at h
          · simp at h
          · rename_i three2 heq
            obtain ⟨-, h33, ht2⟩ := fullHouseStep_none gc three pairs three2 heq
            have h32 : three2.length = 0 ∨ three2.length = 3 := by
              rw [ht2]
              simp only [List.length_append]
              rcases h3 with h0 | h0
              · right
                omega
              · exact absurd h0 h33
            exact (ih three2 pairs h32 hp).2 th pr h
        · split at h
          · simp at h
          · exact (ih three pairs h3 hp).2 th pr h

theorem primLen_le_five (t : Nat) : primLen t ≤ 5 := by
  unfold primLen
  repeat' split
  all_goals omega

theorem rankHand_spec (cards : List Card) (t : Nat) (p : List Card)
    (h : rankHand cards = some (t, p)) : p.length = primLen t := by
  simp only [rankHand] at h
  split at h
  · rename_i s hs
    simp only [Option.some.injEq, Prod.mk.injEq] at h
    obtain ⟨ht, hp⟩ := h
    subst ht
    subst hp
    exact straightOf_length _ _ _ hs
  · split at h
    · rename_i r th pr heq
      obtain ⟨t0, p0⟩ := r
      simp only [Option.some.injEq, Prod.mk.injEq] at h
      obtain ⟨ht, hp⟩ := h
      subst ht
      subst hp
      rcases (rankLoop_spec _ [] [] (Or.inl rfl) rfl).1 t0 p0 th pr heq with ⟨h6, hl⟩ | ⟨h7, hl⟩
      · subst h6
        exact hl
      · subst h7
        exact hl
    · rename_i th pr heq
      have hinv := (rankLoop_spec _ [] [] (Or.inl rfl) rfl).2 th pr heq
      split at h
      · rename_i h2
        simp only [Option.some.injEq, Prod.mk.injEq] at h
        obtain ⟨ht, hp⟩ := h
        subst ht
        subst hp
        exact h2
      · split at h
        · rename_i h2 hne
          simp only [Option.some.injEq, Prod.mk.injEq] at h
          obtain ⟨ht, hp⟩ := h
          subst ht
          subst hp
          have h4 : 4 ≤ pr.length := by
            have he := hinv.2
            have h0 : pr.length ≠ 0 := by
              intro h0
              exact hne (List.length_eq_zero.mp h0)
            omega
          rw [List.length_take]
          have : primLen TWO_PAIR = 4 := rfl
          omega
        · split at h
          · rename_i h2 hp2 hne
            simp only [Option.some.injEq, Prod.mk.injEq] at h
            obtain ⟨ht, hp⟩ := h
            subst ht
            subst hp
            rcases hinv.1 with h0 | h0
            · exact absurd (List.length_eq_zero.mp h0) hne
            · exact h0
          · simp at h

theorem classifyCore_spec (cards : List Card) :
    (classifyCore cards).2.length = primLen (classifyCore cards).1 ∧
    (classifyCore cards).2.length ≤ 5 := by
  unfold classifyCore
  split
  · rename_i r hr
    obtain ⟨t, p⟩ := r
    have hs := suitHand_spec cards t p hr
    constructor
    · rcases hs.1 with h8 | h5f
      · subst h8
        exact hs.2
      · subst h5f
        exact hs.2
    · simp [hs.2]
  · split
    · rename_i r hr
      obtain ⟨t, p⟩ := r
      have hp := rankHand_spec cards t p hr
      exact ⟨hp, by rw [hp]; exact primLen_le_five t⟩
    · exact ⟨rfl, by norm_num⟩

theorem length_le_eraseRank (l : List Card) (r : Nat) :
    l.length ≤ (eraseRank l r).length + 1 := by
  unfold eraseRank
  induction l with
  | nil => simp
  | cons c t ih =>
    rw [List.eraseP_cons]
    cases hc : c.rank == r
    · simp only [cond_false, List.length_cons]
      omega
    · simp only [cond_true, List.length_cons]
      omega

theorem removeFold_length (p cards : List Card) :
    cards.length ≤ (p.foldl (fun acc c => eraseRank acc c.rank) cards).length + p.length := by
  induction p generalizing cards with
  | nil => simp
  | cons c t ih =>
    simp only [List.foldl_cons, List.length_cons]
    have h1 := length_le_eraseRank cards c.rank
    have h2 := ih (eraseRank cards c.rank)
    omega

theorem restOf_none (p cards : List Card) (hp : p.length = 5) :
    restOf p cards = none := by
  unfold restOf
  rw [if_pos]
  have hm : MIN_NUM_CARDS = 5 := rfl
  omega

theorem restOf_some (p cards : List Card) (hp : p.length < 5) (hc : 5 ≤ cards.length) :
    ∃ k, restOf p cards = some k ∧ k.length = 5 - p.length := by
  have hm : MIN_NUM_CARDS = 5 := rfl
  unfold restOf
  rw [if_neg (by omega)]
  refine ⟨_, rfl, ?_⟩
  simp only [List.length_take, length_acePromote, length_sortRankDesc]
  have h1 := removeFold_length p cards
  omega

theorem classifyHand_spec (cards : List Card) (ch : ClassifiedHand)
    (h5 : 5 ≤ cards.length) (h : classifyHand cards = some ch) :
    ch.primary.length = primLen ch.htype ∧ ch.primary.length ≤ 5 ∧
    (ch.kicker = none ↔ ch.primary.length = 5) ∧
    (∀ k, ch.kicker = some k → k.length = 5 - ch.primary.length) := by
  have hm : MIN_NUM_CARDS = 5 := rfl
  unfold classifyHand at h
  rw [if_neg (by omega)] at h
  simp only [Option.some.injEq] at h
  subst h
  obtain ⟨hlen, hle⟩ := classifyCore_spec cards
  refine ⟨hlen, hle, ?_, ?_⟩
  · by_cases hp5 : (classifyCore cards).2.length = 5
    · rw [restOf_none _ _ hp5]
      simp [hp5]
    · obtain ⟨k, hk, -⟩ := restOf_some (classifyCore cards).2 cards (by omega) h5
      rw [hk]
      simp [hp5]
  · intro k hk
    by_cases hp5 : (classifyCore cards).2.length = 5
    · rw [restOf_none _ _ hp5] at hk
      exact Option.noConfusion hk
    · obtain ⟨k2, hk2, hklen⟩ := restOf_some (classifyCore cards).2 cards (by omega) h5
      rw [hk2] at hk
      simp only [Option.some.injEq] at hk
      subst hk
      exact hklen

/-- C2 (amended): for every valid 5-card input the classification is defined
with exactly one category, and the primary plus kicker always total exactly 5
cards, the kicker being present exactly when the primary has fewer than 5
(so a Pair has a 2-card primary and a 3-card kicker, not a 5-card primary). -/
theorem c2_five_card_total (cards : List Card) (h : cards.length = 5) :
    ∃ ch, classifyHand cards = some ch ∧
      ch.primary.length + (ch.kicker.getD []).length = 5 ∧
      (ch.kicker = none ↔ ch.primary.length = 5) := by
  have hm : MIN_NUM_CARDS = 5 := rfl
  have hex : ∃ ch, classifyHand cards = some ch := by
    unfold classifyHand
    rw [if_neg (by omega)]
    exact ⟨_, rfl⟩
  obtain ⟨ch, hch⟩ := hex
  have hs := classifyHand_spec cards ch (by omega) hch
  refine ⟨ch, hch, ?_, hs.2.2.1⟩
  cases hk : ch.kicker with
  | none =>
    have h5 := hs.2.2.1.mp hk
    simp [hk, h5]
  | some k =>
    have hklen := hs.2.2.2 k hk
    have hle := hs.2.1
    simp only [hk, Option.getD_some]
    have hne : ch.primary.length ≠ 5 := by
      intro he
      have := hs.2.2.1.mpr he
      rw [hk] at this
      exact Option.noConfusion this
    omega

theorem c2_five_card_total_witness :
    onePairHand.length = 5 ∧
    (∃ ch, classifyHand onePairHand = some ch ∧
      ch.primary.length + (ch.kicker.getD []).length = 5 ∧
      (ch.kicker = none ↔ ch.primary.length = 5)) :=
  ⟨by decide, c2_five_card_total onePairHand (by decide)⟩

/-- C5: for every 7-card input whose classification has both a primary and a
kicker, the primary and kicker card counts total exactly 5: the kicker is
built by removing the primary's cards from a copy of the 7 cards and taking
the highest 5 - len(primary) of the remainder, which always exist. -/
theorem c5_seven_card_split (cards : List Card) (ch : ClassifiedHand) (k : List Card)
    (h7 : cards.length = 7) (hch : classifyHand cards = some ch)
    (hk : ch.kicker = some k) : ch.primary.length + k.length = 5 := by
  have hs := classifyHand_spec cards ch (by omega) hch
  have hklen := hs.2.2.2 k hk
  have hle := hs.2.1
  have hne : ch.primary.length ≠ 5 := by
    intro he
    have := hs.2.2.1.mpr he
    rw [hk] at this
    exact Option.noConfusion this
  omega

theorem c5_seven_card_split_witness :
    sevenPairHand.length = 7 ∧
    classifyHand sevenPairHand = some sevenPairClassified ∧
    sevenPairClassified.kicker = some sevenPairKicker ∧
    sevenPairClassified.primary.length + sevenPairKicker.length = 5 :=
  ⟨by decide, by decide, by decide,
    c5_seven_card_split sevenPairHand sevenPairClassified sevenPairKicker
      (by decide) (by decide) (by decide)⟩

/-- C1 (counterexample): the claim says the classifier never classifies a hand
whose only five-card run is 5,4,3,2,Ace as StraightFlush or Straight; but the
suited wheel 5,4,3,2,A of spades is classified as a StraightFlush, because the
ace has rank 1 and the descending window test 5 = 1 + 4 succeeds. -/
theorem c1_wheel_counterexample :
    (classifyHand wheelSuited).map ClassifiedHand.htype = some STRAIGHT_FLUSH := by decide

/-- C1 (amended): the classifier does detect the low-end 5-4-3-2-Ace run:
since the ace is rank 1 it sits at the bottom of the descending sort and the
window test top = bottom + 4 matches; the suit scan classifies a suited wheel
as StraightFlush and the rank scan classifies an offsuit wheel as Straight. -/
theorem c1_wheel_detected :
    (classifyHand [⟨2, 5⟩, ⟨2, 4⟩, ⟨2, 3⟩, ⟨2, 2⟩, ⟨2, 1⟩]).map ClassifiedHand.htype =
      some STRAIGHT_FLUSH ∧
    (classifyHand wheelOffsuit).map ClassifiedHand.htype = some STRAIGHT := by
  exact ⟨by decide, by decide⟩

/-- C3 (counterexample): on {2s,2h,2d,5c,5s} the claim expects primary
[2,2,2] (three cards) and kicker [5,5]; the classifier instead produces a
five-card primary and no kicker at all. -/
theorem c3_full_house_counterexample :
    (classifyHand fullHouseHand).map
      (fun h => (h.primary.length, h.kicker.isSome)) = some (5, false) := by decide

/-- C3 (amended): classifying {2s,2h,2d,5c,5s} yields FullHouse with primary
[2,2,2,5,5] (the three 2s followed by the pair of 5s) and no kicker, a full
house being a five-card category. -/
theorem c3_full_house_value :
    (classifyHand fullHouseHand).map
      (fun h => (h.htype, h.primary.map Card.rank, h.kicker)) =
      some (FULL_HOUSE, [2, 2, 2, 5, 5], none) := by decide

/-- C6: classifying {As,Ah,Kd,Kc,Qs,Qh,Jd} (three distinct pairs, no three of
a kind) yields TwoPair from only the two highest pairs [A,A,K,K] (the pairs
accumulator is truncated to its first four cards) with kicker [Q]. -/
theorem c6_three_pairs_two_pair :
    (classifyHand threePairHand).map
      (fun h => (h.htype, h.primary.map Card.rank,
        h.kicker.map (fun k => k.map Card.rank))) =
      some (TWO_PAIR, [1, 1, 13, 13], some [12]) := by decide

/-- C2 (counterexample): on the valid 5-card hand {2s,2h,5d,7c,9s} the claim
expects a five-card primary and no kicker; the classifier produces a Pair
whose primary has 2 cards and whose kicker is present. -/
theorem c2_pair_counterexample :
    (classifyHand onePairHand).map
      (fun h => (h.primary.length, h.kicker.isSome)) = some (2, true) := by decide

/-- C9: a hand holding fewer than MIN_NUM_CARDS cards yields the
classification-unavailable (empty) result, both for the pure classification
and for the stateful classify (which resets the hand attributes). -/
theorem c9_too_few_cards (cards : List Card) (h : cards.length < MIN_NUM_CARDS) :
    classifyHand cards = none := by
  unfold classifyHand
  rw [if_pos h]

theorem c9_too_few_cards_witness :
    ([⟨3, 1⟩, ⟨2, 13⟩, ⟨1, 12⟩, ⟨0, 11⟩] : List Card).length < MIN_NUM_CARDS ∧
    classifyHand [⟨3, 1⟩, ⟨2, 13⟩, ⟨1, 12⟩, ⟨0, 11⟩] = none :=
  ⟨by decide, c9_too_few_cards _ (by decide)⟩

/-- C10: classification never touches the hand's own card list: every branch
of the stateful classify (error reset, memo hit, reclassification) leaves the
cards field unchanged; only the suit/rank groupings, the cards snapshot and
the classified hand are written. -/
theorem c10_cards_unchanged (s : PokerHandState) : (classifyS s).cards = s.cards := by
  unfold classifyS
  split
  · rfl
  · split
    · rfl
    · rfl

/-- C7: running the stats engine from a fresh state with iterations = 1000 and
cards_per_hand = 5 over 52-card decks yields samples = 1000 * (52 / 5) = 10000
(each iteration deals 10 full five-card hands), and after any run the sum of
all histogram buckets equals the samples counter (each dealt hand increments
exactly one bucket, and update clears both together). -/
theorem c7_stats_totals (decks : Nat → List Card) (h52 : ∀ i, (decks i).length = 52) :
    (generate initStats decks 1000 5 UPDATE).1.samples = 1000 * (52 / 5) ∧
    1000 * (52 / 5) = 10000 ∧
    (∀ i j, j < 52 / 5 → (dealtHand (decks i) j 5).length = 5) ∧
    (∀ (s : PokerStatsState) (it c op : Nat), histSum s.histogram = s.samples →
      histSum (generate s decks it c op).1.histogram =
        (generate s decks it c op).1.samples) := by
  refine ⟨rfl, by decide, fun i j hj => ?_, fun s it c op h => generate_inv s decks it c op h⟩
  have hd := h52 i
  simp only [dealtHand, List.length_take, List.length_drop, hd]
  omega

theorem stdDeck_length52 : stdDeck.length = 52 := by decide

theorem c7_stats_totals_witness :
    (∀ i : Nat, ((fun _ : Nat => stdDeck) i).length = 52) ∧
    (generate initStats (fun _ => stdDeck) 1000 5 UPDATE).1.samples = 1000 * (52 / 5) :=
  ⟨fun _ => stdDeck_length52, (c7_stats_totals (fun _ => stdDeck) (fun _ => stdDeck_length52)).1⟩

/-- C8: appending with a cards_per_hand different from the one of an existing
non-empty histogram is rejected inside __set before any parameter is stored or
any hand is generated: generate reports failure and returns the state
completely unchanged (histogram and samples included). -/
theorem c8_append_mismatch (s : PokerStatsState) (decks : Nat → List Card)
    (it c : Nat) (hit : 1 ≤ it) (hc5 : MIN_NUM_CARDS ≤ c) (hc7 : c ≤ MAX_NUM_CARDS)
    (hne : s.cards_per_hand ≠ c) (hh : s.histogram ≠ []) :
    generate s decks it c APPEND = (s, false) := by
  have hset : setParams s it c APPEND = (s, false) := by
    unfold setParams
    rw [if_pos (Or.inr (Or.inl hne))]
    have hpe : paramErr it c APPEND = false := by
      unfold paramErr
      have h1 : ¬(it < 1) := by omega
      rw [if_neg h1, if_neg (by simp [hc5, hc7]), if_neg (by simp [APPEND])]
    rw [hpe]
    simp only [Bool.false_eq_true, if_false]
    exact if_pos ⟨trivial, hne, hh⟩
  unfold generate
  rw [if_pos (by decide : APPEND ≠ 0), hset]

theorem c8_append_mismatch_witness :
    (5 : Nat) ≠ 6 ∧ ([(PAIR, 3)] : List (Nat × Nat)) ≠ [] ∧
    generate { iterations := 1000, cards_per_hand := 5, operation := UPDATE,
               hands_per_deck := 10, histogram := [(PAIR, 3)], samples := 3 }
      (fun _ => []) 7 6 APPEND =
      ({ iterations := 1000, cards_per_hand := 5, operation := UPDATE,
         hands_per_deck := 10, histogram := [(PAIR, 3)], samples := 3 }, false) :=
  ⟨by decide, by decide,
    c8_append_mismatch _ _ _ _ (by decide) (by decide) (by decide) (by decide) (by decide)⟩

theorem compare_eq_cons (c o : Card) (t s : List Card) :
    compare_eq (c :: t) (o :: s) =
      if c.rank ≠ o.rank then false else compare_eq t s := by
  simp only [compare_eq]

theorem compare_lt_cons (c o : Card) (t s : List Card) :
    compare_lt (c :: t) (o :: s) =
      if c.rank ≠ 1 ∧ (c.rank < o.rank ∨ o.rank = 1) then some true
      else if o.rank ≠ 1 ∧ (c.rank > o.rank ∨ c.rank = 1) then some false
      else compare_lt t s := by
  simp only [compare_lt]

theorem compare_eq_refl (l : List Card) : compare_eq l l = true := by
  induction l with
  | nil => rfl
  | cons c t ih =>
    rw [compare_eq_cons, if_neg (by omega)]
    exact ih

theorem compare_eq_iff_map (l l' : List Card) (h : l.length = l'.length) :
    compare_eq l l' = true ↔ l.map Card.rank = l'.map Card.rank := by
  induction l generalizing l' with
  | nil =>
    cases l' with
    | nil => simp [compare_eq]
    | cons o s => simp at h
  | cons c t ih =>
    cases l' with
    | nil => simp at h
    | cons o s =>
      simp only [List.length_cons] at h
      rw [compare_eq_cons]
      by_cases hr : c.rank = o.rank
      · rw [if_neg (by omega)]
        simp only [List.map_cons, hr]
        rw [ih s (by omega)]
        simp
      · rw [if_pos (by omega)]
        simp only [List.map_cons, Bool.false_eq_true, false_iff]
        intro he
        injection he with h1 h2
        exact hr h1

theorem compare_lt_none_iff (l l' : List Card) :
    compare_lt l l' = none ↔ compare_eq l l' = true := by
  induction l generalizing l' with
  | nil => cases l' <;> simp [compare_lt, compare_eq]
  | cons c t ih =>
    cases l' with
    | nil => simp [compare_lt, compare_eq]
    | cons o s =>
      by_cases hr : c.rank = o.rank
      · rw [compare_lt_cons, compare_eq_cons, if_neg (by omega), if_neg (by omega),
          if_neg (by omega)]
        exact ih s
      · have e2 : compare_eq (c :: t) (o :: s) = false := by
          rw [compare_eq_cons, if_pos (by omega)]
        have e1 : ∃ v, compare_lt (c :: t) (o :: s) = some v := by
          rw [compare_lt_cons]
          by_cases h1 : c.rank ≠ 1 ∧ (c.rank < o.rank ∨ o.rank = 1)
          · rw [if_pos h1]
            exact ⟨_, rfl⟩
          · rw [if_neg h1, if_pos (by omega)]
            exact ⟨_, rfl⟩
        obtain ⟨v, hv⟩ := e1
        rw [hv, e2]
        simp

theorem compare_lt_swap (l l' : List Card) :
    compare_lt l' l = (compare_lt l l').map (fun x => !x) := by
  induction l generalizing l' with
  | nil => cases l' <;> rfl
  | cons c t ih =>
    cases l' with
    | nil => rfl
    | cons o s =>
      by_cases hr : c.rank = o.rank
      · rw [compare_lt_cons, compare_lt_cons, if_neg (by omega), if_neg (by omega),
          if_neg (by omega), if_neg (by omega), ih s]
      · by_cases h1 : c.rank ≠ 1 ∧ (c.rank < o.rank ∨ o.rank = 1)
        · have e1 : compare_lt (c :: t) (o :: s) = some true := by
            rw [compare_lt_cons, if_pos h1]
          have e2 : compare_lt (o :: s) (c :: t) = some false := by
            rw [compare_lt_cons, if_neg (by omega), if_pos (by omega)]
          rw [e1, e2]
          rfl
        · have e1 : compare_lt (c :: t) (o :: s) = some false := by
            rw [compare_lt_cons, if_neg h1, if_pos (by omega)]
          have e2 : compare_lt (o :: s) (c :: t) = some true := by
            rw [compare_lt_cons, if_pos (by omega)]
          rw [e1, e2]
          rfl

theorem handEq_iff (a b : ClassifiedHand)
    (haP : a.primary.length = primLen a.htype) (hbP : b.primary.length = primLen b.htype)
    (haK : a.kicker = none ↔ a.primary.length = 5)
    (hbK : b.kicker = none ↔ b.primary.length = 5)
    (haKl : ∀ k, a.kicker = some k → k.length = 5 - a.primary.length)
    (hbKl : ∀ k, b.kicker = some k → k.length = 5 - b.primary.length) :
    handEq a b = true ↔
      (a.htype = b.htype ∧ a.primary.map Card.rank = b.primary.map Card.rank ∧
       (a.kicker.getD []).map Card.rank = (b.kicker.getD []).map Card.rank) := by
  unfold handEq
  constructor
  · intro h
    split at h
    · rename_i hcond
      obtain ⟨hht, hpe⟩ := hcond
      have hlen : a.primary.length = b.primary.length := by
        rw [haP, hbP, hht]
      have hmap : a.primary.map Card.rank = b.primary.map Card.rank :=
        (compare_eq_iff_map _ _ hlen).mp hpe
      refine ⟨hht, hmap, ?_⟩
      cases hak : a.kicker with
      | none =>
        have hbk : b.kicker = none := by
          rw [hbK, ← hlen, ← haK]
          exact hak
        simp [hak, hbk]
      | some k =>
        simp only [hak] at h
        cases hbk : b.kicker with
        | none =>
          have h5a : a.primary.length ≠ 5 := by
            intro he
            have hn := haK.mpr he
            rw [hak] at hn
            exact Option.noConfusion hn
          have h5b : b.primary.length = 5 := hbK.mp hbk
          exact absurd (hlen.trans h5b) h5a
        | some kb =>
          have hkalen := haKl k hak
          have hkblen := hbKl kb hbk
          have hklen : k.length = kb.length := by omega
          rw [hbk] at h
          simp only [Option.getD_some] at h
          simp only [hak, hbk, Option.getD_some]
          exact (compare_eq_iff_map _ _ hklen).mp h
    · exact absurd h (by simp)
  · rintro ⟨hht, hmap, hkmap⟩
    have hlen : a.primary.length = b.primary.length := by
      rw [haP, hbP, hht]
    have hpe : compare_eq a.primary b.primary = true :=
      (compare_eq_iff_map _ _ hlen).mpr hmap
    rw [if_pos ⟨hht, hpe⟩]
    cases hak : a.kicker with
    | none => rfl
    | some k =>
      cases hbk : b.kicker with
      | none =>
        have h5a : a.primary.length ≠ 5 := by
          intro he
          have hn := haK.mpr he
          rw [hak] at hn
          exact Option.noConfusion hn
        have h5b : b.primary.length = 5 := hbK.mp hbk
        exact absurd (hlen.trans h5b) h5a
      | some kb =>
        have hkalen := haKl k hak
        have hkblen := hbKl kb hbk
        have hklen : k.length = kb.length := by omega
        rw [hak, hbk] at hkmap
        simp only [Option.getD_some] at hkmap
        simp only [hbk, Option.getD_some]
        exact (compare_eq_iff_map _ _ hklen).mpr hkmap

theorem handEq_symm (a b : ClassifiedHand)
    (haP : a.primary.length = primLen a.htype) (hbP : b.primary.length = primLen b.htype)
    (haK : a.kicker = none ↔ a.primary.length = 5)
    (hbK : b.kicker = none ↔ b.primary.length = 5)
    (haKl : ∀ k, a.kicker = some k → k.length = 5 - a.primary.length)
    (hbKl : ∀ k, b.kicker = some k → k.length = 5 - b.primary.length) :
    handEq a b = handEq b a := by
  have h1 := handEq_iff a b haP hbP haK hbK haKl hbKl
  have h2 := handEq_iff b a hbP haP hbK haK hbKl haKl
  by_cases hab : handEq a b = true
  · obtain ⟨hht, hmap, hkmap⟩ := h1.mp hab
    rw [hab, h2.mpr ⟨hht.symm, hmap.symm, hkmap.symm⟩]
  · by_cases hba : handEq b a = true
    · obtain ⟨hht, hmap, hkmap⟩ := h2.mp hba
      exact absurd (h1.mpr ⟨hht.symm, hmap.symm, hkmap.symm⟩) hab
    · rw [Bool.not_eq_true] at hab hba
      rw [hab, hba]

theorem handLt_flip (a b : ClassifiedHand)
    (haP : a.primary.length = primLen a.htype) (hbP : b.primary.length = primLen b.htype)
    (haK : a.kicker = none ↔ a.primary.length = 5)
    (hbK : b.kicker = none ↔ b.primary.length = 5)
    (_haKl : ∀ k, a.kicker = some k → k.length = 5 - a.primary.length)
    (_hbKl : ∀ k, b.kicker = some k → k.length = 5 - b.primary.length)
    (hne : handEq a b = false) :
    handLt b a = !(handLt a b) := by
  rcases Nat.lt_trichotomy a.htype b.htype with hlt | heq | hgt
  · have e1 : handLt a b = true := by
      unfold handLt
      rw [if_pos hlt]
    have e2 : handLt b a = false := by
      unfold handLt
      rw [if_neg (by omega), if_neg (by omega)]
    rw [e1, e2]
    rfl
  · have hlen : a.primary.length = b.primary.length := by
      rw [haP, hbP, heq]
    cases hc : compare_lt a.primary b.primary with
    | some v =>
      have hswap : compare_lt b.primary a.primary = some (!v) := by
        rw [compare_lt_swap, hc]
        rfl
      have e1 : handLt a b = v := by
        unfold handLt
        rw [if_neg (by omega), if_pos heq, hc]
      have e2 : handLt b a = !v := by
        unfold handLt
        rw [if_neg (by omega), if_pos heq.symm, hswap]
      rw [e1, e2]
    | none =>
      have hswap : compare_lt b.primary a.primary = none := by
        rw [compare_lt_swap, hc]
        rfl
      have hpe : compare_eq a.primary b.primary = true := (compare_lt_none_iff _ _).mp hc
      have hpe2 : compare_eq b.primary a.primary = true := (compare_lt_none_iff _ _).mp hswap
      cases hak : a.kicker with
      | none =>
        have hbk : b.kicker = none := by
          rw [hbK, ← hlen, ← haK]
          exact hak
        have : handEq a b = true := by
          unfold handEq
          rw [if_pos ⟨heq, hpe⟩]
          simp [hak]
        rw [this] at hne
        exact absurd hne (by simp)
      | some k =>
        cases hbk : b.kicker with
        | none =>
          have h5a : a.primary.length ≠ 5 := by
            intro he
            have hn := haK.mpr he
            rw [hak] at hn
            exact Option.noConfusion hn
          have h5b : b.primary.length = 5 := hbK.mp hbk
          exact absurd (hlen.trans h5b) h5a
        | some kb =>
          cases hkc : compare_lt k kb with
          | none =>
            have hke : compare_eq k kb = true := (compare_lt_none_iff _ _).mp hkc
            have : handEq a b = true := by
              unfold handEq
              rw [if_pos ⟨heq, hpe⟩]
              simp only [hak, hbk, Option.getD_some]
              exact hke
            rw [this] at hne
            exact absurd hne (by simp)
          | some w =>
            have hkswap : compare_lt kb k = some (!w) := by
              rw [compare_lt_swap, hkc]
              rfl
            have e1 : handLt a b = w := by
              unfold handLt
              rw [if_neg (by omega), if_pos heq, hc]
              simp only [hak, hbk, Option.getD_some, hkc]
            have e2 : handLt b a = !w := by
              unfold handLt
              rw [if_neg (by omega), if_pos heq.symm, hswap]
              simp only [hak, hbk, Option.getD_some, hkswap]
            rw [e1, e2]
  · have e1 : handLt a b = false := by
      unfold handLt
      rw [if_neg (by omega), if_neg (by omega)]
    have e2 : handLt b a = true := by
      unfold handLt
      rw [if_pos hgt]
    rw [e1, e2]
    rfl

/-- C4: for any two successfully classified hands, compare yields Equal
exactly when both have the same category and the primary (and kicker, when
present: the getD [] below is the empty sequence when absent, and same
category means both kickers are present or both absent) sequences are
rank-wise identical; compare of a classified hand with itself is Equal; and
compare(a,b) = Greater exactly when compare(b,a) = Less. -/
theorem c4_compare_consistency (ca cb : List Card) (a b : ClassifiedHand)
    (ha5 : 5 ≤ ca.length) (hb5 : 5 ≤ cb.length)
    (ha : classifyHand ca = some a) (hb : classifyHand cb = some b) :
    (compareHands a b = CmpRes.eq ↔
      (a.htype = b.htype ∧ a.primary.map Card.rank = b.primary.map Card.rank ∧
       (a.kicker.getD []).map Card.rank = (b.kicker.getD []).map Card.rank)) ∧
    compareHands a a = CmpRes.eq ∧
    (compareHands a b = CmpRes.gt ↔ compareHands b a = CmpRes.lt) := by
  obtain ⟨haP, -, haK, haKl⟩ := classifyHand_spec ca a ha5 ha
  obtain ⟨hbP, -, hbK, hbKl⟩ := classifyHand_spec cb b hb5 hb
  have hiff := handEq_iff a b haP hbP haK hbK haKl hbKl
  refine ⟨?_, ?_, ?_⟩
  · by_cases he : handEq a b = true
    · have e1 : compareHands a b = CmpRes.eq := by
        simp [compareHands, he]
      rw [e1]
      exact iff_of_true rfl (hiff.mp he)
    · have hne : handEq a b = false := by
        simpa using he
      have e1 : compareHands a b = (if handLt b a then CmpRes.gt else CmpRes.lt) := by
        simp [compareHands, hne]
      constructor
      · intro hcon
        rw [e1] at hcon
        exfalso
        cases hbl : handLt b a
        · rw [hbl] at hcon
          simp at hcon
        · rw [hbl] at hcon
          simp at hcon
      · intro hrhs
        exact absurd (hiff.mpr hrhs) he
  · have heqa : handEq a a = true :=
      (handEq_iff a a haP haP haK haK haKl haKl).mpr ⟨rfl, rfl, rfl⟩
    simp [compareHands, heqa]
  · by_cases he : handEq a b = true
    · have he2 : handEq b a = true := by
        rw [← handEq_symm a b haP hbP haK hbK haKl hbKl]
        exact he
      have e1 : compareHands a b = CmpRes.eq := by
        simp [compareHands, he]
      have e2 : compareHands b a = CmpRes.eq := by
        simp [compareHands, he2]
      rw [e1, e2]
      constructor
      · intro hcon
        exact absurd hcon (by simp)
      · intro hcon
        exact absurd hcon (by simp)
    · have hne : handEq a b = false := by
        simpa using he
      have hne2 : handEq b a = false := by
        rw [← handEq_symm a b haP hbP haK hbK haKl hbKl]
        exact hne
      have hflip := handLt_flip a b haP hbP haK hbK haKl hbKl hne
      have e1 : compareHands a b = (if handLt b a then CmpRes.gt else CmpRes.lt) := by
        simp [compareHands, hne]
      have e2 : compareHands b a = (if handLt a b then CmpRes.gt else CmpRes.lt) := by
        simp [compareHands, hne2]
      cases hbl : handLt b a
      · have hab : handLt a b = true := by
          rw [hbl] at hflip
          simpa using hflip.symm
        rw [e1, e2, hbl, hab]
        simp
      · have hab : handLt a b = false := by
          rw [hbl] at hflip
          simpa using hflip.symm
        rw [e1, e2, hbl, hab]
        simp

theorem c4_compare_consistency_witness :
    classifyHand highCardHand = some highCardClassified ∧
    classifyHand royalHand = some royalClassified ∧
    compareHands highCardClassified highCardClassified = CmpRes.eq :=
  ⟨by decide, by decide,
    (c4_compare_consistency highCardHand royalHand highCardClassified royalClassified
      (by decide) (by decide) (by decide) (by decide)).2.1⟩

end Poker
